import Mathlib

/-
Verification of the agentic-ai-playground orchestration code.

Shallow embedding of:
  - the mock domain-collaborator tools and the workflow-plan builder of
    automotive_multi-agent.py,
  - the handoff conversation loop of AgentsSDKPlaybook.py,
  - the symbol/exchange extraction of trading_agent.py,
  - a workflow execution engine modelled from the specification (the
    repository delegates plan execution to LLM agents, so the engine
    itself has no source under src/).

Python dict values are modelled by the inductive type JVal; Python floats
appear in this code only in literals, comparisons and payload fields, and
are modelled by rationals.
-/

/-- JSON-like values, modelling the Python dict/list/str/number/bool payloads
returned by the mock MCP tools. -/
inductive JVal where
  | s (v : String)
  | n (v : ℚ)
  | b (v : Bool)
  | arr (v : List JVal)
  | obj (v : List (String × JVal))

/-- Envelopes returned by collaborator tools are Python dicts: ordered lists of
key/value pairs, looked up by key. -/
def Envelope : Type := List (String × JVal)

/-- Key lookup in an envelope (Python dict access / key-presence test). -/
def Envelope.get (e : Envelope) (k : String) : Option JVal :=
  match e with
  | [] => none
  | (k', v) :: rest => if k' = k then some v else Envelope.get rest k

/-- Embedding of get_repair_order_details from automotive_multi-agent.py
(lines 43-72): success envelope for RO_001, not-found envelope otherwise. -/
def get_repair_order_details (ro_number : String) : Envelope :=
  if ro_number = "RO_001" then
    [("success", .b true),
     ("tool", .s "get_repair_order_details"),
     ("result", .obj
       [("roNumber", .s ro_number),
        ("status", .s "IN_PROGRESS"),
        ("customerId", .s "CUST_001"),
        ("vehicleId", .s "VEH_001"),
        ("customerEmail", .s "customer@example.com"),
        ("totalAmount", .n (14599/100)),
        ("parts", .arr []),
        ("canModify", .b true),
        ("createdDate", .s "2025-01-15")]),
     ("timestamp", .s "2025-01-15T10:30:00Z"),
     ("mcp_server", .s "repair-orders-server-3003")]
  else
    [("success", .b false),
     ("error", .s "Repair Order Not Found"),
     ("message", .s ("Repair order " ++ ro_number ++ " not found")),
     ("tool", .s "get_repair_order_details"),
     ("mcp_server", .s "repair-orders-server-3003")]

/-- Embedding of get_part_by_number from automotive_multi-agent.py
(lines 74-103): success envelope for PART_001, not-found envelope otherwise. -/
def get_part_by_number (part_number : String) : Envelope :=
  if part_number = "PART_001" then
    [("success", .b true),
     ("tool", .s "get_part_by_number"),
     ("result", .obj
       [("partNumber", .s part_number),
        ("description", .s "Brake Pad Set - Front"),
        ("category", .s "BRAKES"),
        ("unitPrice", .n (4599/100)),
        ("currency", .s "INR"),
        ("brand", .s "OEM"),
        ("inStock", .b true),
        ("availableQuantity", .n 25),
        ("compatibility", .arr [.s "Honda Civic", .s "Honda Accord"])]),
     ("timestamp", .s "2025-01-15T10:30:00Z"),
     ("mcp_server", .s "parts-server-3005")]
  else
    [("success", .b false),
     ("error", .s "Part Not Found"),
     ("message", .s ("Part " ++ part_number ++ " not found in catalog")),
     ("tool", .s "get_part_by_number"),
     ("mcp_server", .s "parts-server-3005")]

/-- Embedding of add_part_to_repair_order from automotive_multi-agent.py
(lines 191-215): a single unconditional success envelope; the function
inspects none of its arguments. Python int quantity is modelled by Int. -/
def add_part_to_repair_order (ro_number : String) (part_number : String)
    (quantity : Int := 1) : Envelope :=
  [("success", .b true),
   ("tool", .s "add_part_to_repair_order"),
   ("result", .obj
     [("roNumber", .s ro_number),
      ("partAdded", .obj
        [("partNumber", .s part_number),
         ("quantity", .n (quantity : ℚ)),
         ("unitPrice", .n (4599/100)),
         ("totalPrice", .n ((4599/100) * (quantity : ℚ)))]),
      ("updatedTotals", .obj
        [("partsTotal", .n ((4599/100) * (quantity : ℚ))),
         ("laborTotal", .n 100),
         ("grandTotal", .n ((4599/100) * (quantity : ℚ) + 100))]),
      ("inventoryReserved", .b true)]),
   ("timestamp", .s "2025-01-15T10:30:00Z"),
   ("message", .s ("Successfully added " ++ toString quantity ++ "x "
      ++ part_number ++ " to repair order " ++ ro_number)),
   ("mcp_server", .s "repair-orders-server-3003")]

/-- Whitespace characters of a Python regex \s class (ASCII range). -/
def isSpaceRe (c : Char) : Bool :=
  c = ' ' || c = '\t' || c = '\n' || c = '\x0d' || c = '\x0b' || c = '\x0c'

/-- Character class of the email regex used by create_payment_link: any
character that is neither whitespace nor the at sign. -/
def emailClass (c : Char) : Bool :=
  !(isSpaceRe c) && c ≠ '@'

/-- Scan for a dot that is followed by at least one more character. Used to
decide whether the domain part of an email splits as A ++ dot ++ B with B
nonempty. -/
def dotThenMore : List Char → Bool
  | [] => false
  | c :: t => (c = '.' && !t.isEmpty) || dotThenMore t

/-- Existence of a split of the domain part as A ++ dot ++ B with both A and B
nonempty: the first character opens A, and somewhere later a dot is followed
by at least one character. -/
def hasDotSplit : List Char → Bool
  | [] => false
  | _ :: t => dotThenMore t

/-- Semantics of re.match with the create_payment_link email pattern: one or
more non-space non-at characters, an at sign, then a domain of non-space
non-at characters containing a dot with nonempty text on both sides,
reaching the end of the string. -/
def email_ok (email : String) : Bool :=
  let l := email.toList
  let p := l.takeWhile (fun c => c ≠ '@')
  match l.dropWhile (fun c => c ≠ '@') with
  | '@' :: t =>
    !p.isEmpty && p.all emailClass && !t.isEmpty && t.all emailClass
      && hasDotSplit t
  | _ => false

/-- Embedding of create_payment_link from automotive_multi-agent.py
(lines 217-257): email validation, amount range validation, then a success
envelope. Python float amount is modelled by a rational; the int() cast in
the payment link id is floor, which agrees with Python truncation on the
positive amounts of the success branch. -/
def create_payment_link (ro_number : String) (amount : ℚ)
    (customer_email : String) (currency : String := "INR") : Envelope :=
  if !email_ok customer_email then
    [("success", .b false),
     ("error", .s "Invalid Email"),
     ("message", .s "Valid customer email is required"),
     ("tool", .s "create_payment_link")]
  else if amount ≤ 0 || amount > 999999999 then
    [("success", .b false),
     ("error", .s "Invalid Amount"),
     ("message", .s "Payment amount must be between 0 and 999999999"),
     ("tool", .s "create_payment_link")]
  else
    [("success", .b true),
     ("tool", .s "create_payment_link"),
     ("result", .obj
       [("paymentLinkId", .s ("PL_" ++ ro_number ++ "_" ++ toString ⌊amount⌋)),
        ("paymentUrl", .s ("https://payments.cacargroup.com/pay/PL_"
           ++ ro_number ++ "_" ++ toString ⌊amount⌋)),
        ("amount", .n amount),
        ("currency", .s currency),
        ("customerEmail", .s customer_email),
        ("roNumber", .s ro_number),
        ("expiresAt", .s "2025-01-16T10:30:00Z"),
        ("status", .s "ACTIVE")]),
     ("timestamp", .s "2025-01-15T10:30:00Z"),
     ("message", .s ("Payment link created for " ++ currency ++ " "
        ++ toString amount ++ " sent to " ++ customer_email)),
     ("mcp_server", .s "payment-server-3002")]

/-- Workflow step of automotive_multi-agent.py (lines 21-27). The status field
of the source is a plain string with default value pending. -/
structure WorkflowStep where
  step_id : String
  agent_type : String
  action : String
  parameters : List (String × JVal)
  dependencies : List String := []
  status : String := "pending"

/-- Workflow plan of automotive_multi-agent.py (lines 29-34). -/
structure WorkflowPlan where
  request_id : String
  original_query : String
  steps : List WorkflowStep
  execution_order : List String
  parallel_groups : List (List String) := []

/-- Workflow result of automotive_multi-agent.py (lines 36-40). The result
payload is carried as a JVal option. -/
structure WorkflowResult where
  step_id : String
  success : Bool
  result : Option JVal
  error_message : Option String := none

/-- ASCII lower-casing of a character, the behaviour of Python str.lower on
the ASCII queries of this program. -/
def asciiLower (c : Char) : Char :=
  if 'A' ≤ c && c ≤ 'Z' then Char.ofNat (c.toNat + 32) else c

/-- ASCII upper-casing of a character, the behaviour of Python str.upper on
the ASCII queries of this program. -/
def asciiUpper (c : Char) : Char :=
  if 'a' ≤ c && c ≤ 'z' then Char.ofNat (c.toNat - 32) else c

/-- Decide whether the pattern list is an initial segment of the other list. -/
def leadsWith : List Char → List Char → Bool
  | [], _ => true
  | _ :: _, [] => false
  | a :: as, b :: bs => a = b && leadsWith as bs

/-- Python substring containment: the pattern occurs contiguously somewhere in
the text. -/
def hasSubstr (pat : List Char) : List Char → Bool
  | [] => leadsWith pat []
  | c :: t => leadsWith pat (c :: t) || hasSubstr pat t

/-- Embedding of analyze_multi_domain_request from automotive_multi-agent.py
(lines 259-314): queries containing both phrases add part and payment link
(case-insensitively) yield the hard-coded four-step compound plan, in which
the step execute_1 declares a dependency on validate_5; every other query
yields the single-step default plan. -/
def analyze_multi_domain_request (query : String) : WorkflowPlan :=
  let lower := query.toList.map asciiLower
  if hasSubstr "add part".toList lower && hasSubstr "payment link".toList lower then
    { request_id := "REQ_001_DEFENSIVE"
      original_query := query
      steps :=
        [{ step_id := "validate_1"
           agent_type := "repair_orders"
           action := "validate_repair_order"
           parameters := [("ro_number", .s "RO_001")] },
         { step_id := "validate_2"
           agent_type := "parts"
           action := "validate_part_exists"
           parameters := [("part_number", .s "PART_001")]
           dependencies := ["validate_1"] },
         { step_id := "execute_1"
           agent_type := "parts"
           action := "add_part_to_order"
           parameters := [("ro_number", .s "RO_001"),
                          ("part_number", .s "PART_001"),
                          ("quantity", .n 1)]
           dependencies := ["validate_5"] },
         { step_id := "execute_2"
           agent_type := "payment"
           action := "create_payment_link"
           parameters := [("ro_number", .s "RO_001"),
                          ("amount", .n 100),
                          ("customer_email", .s "abc@gmail.com"),
                          ("currency", .s "USD")]
           dependencies := ["execute_1"] }]
      execution_order := ["validate_1", "validate_2", "execute_1", "execute_2"] }
  else
    { request_id := "REQ_002"
      original_query := query
      steps :=
        [{ step_id := "step_1"
           agent_type := "general"
           action := "handle_query"
           parameters := [("query", .s query)] }]
      execution_order := ["step_1"] }

/-- Declared step ids of a plan. -/
def WorkflowPlan.stepIds (p : WorkflowPlan) : List String :=
  p.steps.map (fun s => s.step_id)

/-- Decide whether some step of the plan declares a dependency on a step id
that is not declared in the plan. -/
def WorkflowPlan.hasDanglingDep (p : WorkflowPlan) : Bool :=
  p.steps.any (fun s => s.dependencies.any (fun d => !(p.stepIds.contains d)))

/-- Decide whether two lists of step ids are permutations of one another, by
comparing lengths and multiplicities of every element of either list. -/
def permCheck (l₁ l₂ : List String) : Bool :=
  l₁.length = l₂.length && (l₁ ++ l₂).all (fun x => l₁.count x = l₂.count x)

/-- Position of a string in a list, if present. -/
def posIn (l : List String) (x : String) : Option Nat :=
  match l with
  | [] => none
  | y :: t => if y = x then some 0 else (posIn t x).map (· + 1)

/-- Decide whether d occurs strictly earlier than e in the list. -/
def earlierIn (l : List String) (d e : String) : Bool :=
  match posIn l d, posIn l e with
  | some i, some j => i < j
  | _, _ => false

/-- Decide whether every dependency of every step of the plan appears strictly
earlier in the execution order than the step itself. -/
def WorkflowPlan.depsRespectOrder (p : WorkflowPlan) : Bool :=
  p.steps.all (fun s =>
    s.dependencies.all (fun d => earlierIn p.execution_order d s.step_id))

/-- Compound demo query of automotive_multi-agent.py main (line 391). -/
def demoQuery : String :=
  "Add partNumber PART_001 to Repair order number RO_001, and send payment link of 100$ to abc@gmail.com"

/-- Compound example query of the specification (section 8). -/
def specQuery : String :=
  "Add part PART_001 to RO_001 and send a payment link of 100 to a@b.com"

/-- Boolean payload extraction. -/
def JVal.asBool : JVal → Option Bool
  | .b v => some v
  | _ => none

/-- Success flag of an envelope, when the success key holds a boolean. -/
def Envelope.successFlag (e : Envelope) : Option Bool :=
  (e.get "success").bind JVal.asBool

/-- Decide whether the envelope reports success. -/
def Envelope.isSuccess (e : Envelope) : Bool :=
  e.successFlag = some true

/-- Core envelope shape shared by every collaborator branch: a boolean success
flag, a tool name, and a result payload on success or an error payload on
failure. -/
def Envelope.envCore (e : Envelope) : Bool :=
  e.successFlag.isSome && (e.get "tool").isSome &&
    (if e.isSuccess then (e.get "result").isSome else (e.get "error").isSome)

/-- Uniform envelope shape asserted by the specification for every
collaborator operation on every branch: besides the core shape, a message
string and a source identifier (the mcp_server key) are always present. -/
def Envelope.uniformShape (e : Envelope) : Bool :=
  e.envCore && (e.get "message").isSome && (e.get "mcp_server").isSome

/-- Character class of the symbol token in the trading-agent regexes: capital
letters, digits, ampersand and hyphen. -/
def symClass (c : Char) : Bool :=
  ('A' ≤ c && c ≤ 'Z') || ('0' ≤ c && c ≤ '9') || c = '&' || c = '-'

/-- Exchange alternation of the trading-agent regexes, in source order. -/
def exchangeAlts : List String := ["NSE", "BSE", "NFO", "MCX"]

/-- Match one exchange token as an initial segment of the list, trying the
alternatives in source order (they are mutually exclusive at any one
position, so this is the Python alternation semantics); returns the matched
exchange and the remaining characters. -/
def matchExchange (l : List Char) : Option (String × List Char) :=
  match exchangeAlts.find? (fun ex => leadsWith ex.toList l) with
  | some ex => some (ex, l.drop ex.toList.length)
  | none => none

/-- Attempt of the pattern EXCHANGE:SYMBOL at the head of the list: an
exchange token, a colon, then a maximal nonempty run of symbol characters
(the greedy group of the regex). -/
def attemptColon (l : List Char) : Option (String × String) :=
  match matchExchange l with
  | some (ex, rest) =>
    match rest with
    | ':' :: rest2 =>
      let sym := rest2.takeWhile symClass
      if sym.isEmpty then none else some (String.mk sym, ex)
    | _ => none
  | none => none

/-- Middle keyword of the second trading-agent pattern: ON, AT, or TRADED
followed by whitespace and AT, tried in source order. The three alternatives
begin with distinct letters, and the whitespace run is maximal because the
keyword continuations never begin with whitespace, so this first-match
strategy coincides with the Python backtracking semantics. -/
def matchMiddle (l : List Char) : Option (List Char) :=
  if leadsWith "ON".toList l then some (l.drop 2)
  else if leadsWith "AT".toList l then some (l.drop 2)
  else if leadsWith "TRADED".toList l then
    let r := l.drop 6
    let ws := r.takeWhile isSpaceRe
    let r2 := r.dropWhile isSpaceRe
    if ws.isEmpty then none
    else if leadsWith "AT".toList r2 then some (r2.drop 2) else none
  else none

/-- Attempt of the pattern SYMBOL whitespace (ON or AT or TRADED AT)
whitespace EXCHANGE at the head of the list. The symbol group is the maximal
run of symbol characters: the character classes of the group and of the
following whitespace are disjoint, so the greedy Python group never
backtracks to a shorter run that could still match. -/
def attemptPhrase (l : List Char) : Option (String × String) :=
  let sym := l.takeWhile symClass
  let rest := l.dropWhile symClass
  if sym.isEmpty then none
  else
    let ws := rest.takeWhile isSpaceRe
    let rest2 := rest.dropWhile isSpaceRe
    if ws.isEmpty then none
    else
      match matchMiddle rest2 with
      | some rest3 =>
        let ws2 := rest3.takeWhile isSpaceRe
        let rest4 := rest3.dropWhile isSpaceRe
        if ws2.isEmpty then none
        else
          match matchExchange rest4 with
          | some (ex, _) => some (String.mk sym, ex)
          | none => none
      | none => none

/-- Attempt of the pattern EXCHANGE whitespace SYMBOL at the head of the
list. -/
def attemptPair (l : List Char) : Option (String × String) :=
  match matchExchange l with
  | some (ex, rest) =>
    let ws := rest.takeWhile isSpaceRe
    let rest2 := rest.dropWhile isSpaceRe
    if ws.isEmpty then none
    else
      let sym := rest2.takeWhile symClass
      if sym.isEmpty then none else some (String.mk sym, ex)
  | none => none

/-- Leftmost-match search of re.search: try the attempt at every start
position from the left and return the first hit. -/
def searchWith (attempt : List Char → Option (String × String)) :
    List Char → Option (String × String)
  | [] => attempt []
  | c :: t =>
    match attempt (c :: t) with
    | some r => some r
    | none => searchWith attempt t

/-- Known-symbol table of parse_symbol_from_query, in source order. -/
def known_symbols : List String :=
  ["RELIANCE", "TCS", "INFY", "HDFC", "ICICI", "SBI", "ITC",
   "HDFCBANK", "BHARTIARTL", "KOTAKBANK", "LT", "ASIANPAINT",
   "MARUTI", "TITAN", "NESTLEIND", "ULTRACEMCO", "BAJFINANCE",
   "SENSEX", "NIFTY"]

/-- Core of parse_symbol_from_query over the upper-cased character list: the
four patterns of trading_agent.py lines 52-81 in priority order. -/
def parseSymbolCore (u : List Char) : Option (String × String) :=
  match searchWith attemptColon u with
  | some r => some r
  | none =>
    match searchWith attemptPhrase u with
    | some r => some r
    | none =>
      match searchWith attemptPair u with
      | some r => some r
      | none =>
        match known_symbols.find? (fun sym => hasSubstr sym.toList u) with
        | some sym => some (sym, "NSE")
        | none => none

/-- Embedding of parse_symbol_from_query from trading_agent.py (lines 52-81).
Every Python return statement returns the symbol and the exchange together,
so the result is a joint option unpacked into the pair of options the
function returns. -/
def parse_symbol_from_query (query : String) : Option String × Option String :=
  match parseSymbolCore (query.toList.map asciiUpper) with
  | some (sym, ex) => (some sym, some ex)
  | none => (none, none)

/-- Actions of the structured triage decision of AgentsSDKPlaybook.py
(lines 24-28). -/
inductive TriageAction where
  | handoff_to_french
  | handoff_to_spanish
  | handoff_to_german
  | complete
deriving DecidableEq

/-- Structured output of the triage agent (AgentsSDKPlaybook.py lines 24-28). -/
structure TriageDecision where
  action : TriageAction
  message : String
  remaining_languages : List String := []
deriving DecidableEq

/-- Observable effect of one Runner.run invocation in the conversation loop of
AgentsSDKPlaybook.py main (lines 157-203): how many items the run appends to
the inputs list, whether the last agent is the triage agent, and the triage
agent's structured decision when the final output is a TriageDecision. The
language capability is a collaborator outside the core, so the sequence of turn
results is a parameter of the loop. -/
structure TurnResult where
  growth : Nat
  atTriage : Bool
  decision : Option TriageDecision

/-- Terminal outcomes of the inner conversation loop, each carrying the number
of Runner.run invocations performed: the completion break (line 186), the
unexpected-output break (lines 189-194), and the iteration-cap break
(lines 196-200); diverged marks fuel exhaustion and is proved unreachable. -/
inductive LoopOutcome where
  | completed (turns : Nat)
  | unexpectedShape (turns : Nat)
  | loopLimit (turns : Nat)
  | diverged
deriving DecidableEq

/-- Invocation count of a terminal outcome, absent for fuel exhaustion. -/
def LoopOutcome.turns : LoopOutcome → Option Nat
  | .completed t => some t
  | .unexpectedShape t => some t
  | .loopLimit t => some t
  | .diverged => none

/-- Embedding of the inner conversation loop of AgentsSDKPlaybook.py main
(lines 157-203): k counts the Runner.run invocations performed so far and n
is the current length of the inputs list (initially one user message). Each
iteration runs the current agent; if control is back at the triage agent, a
complete decision breaks the loop and a non-TriageDecision output breaks the
loop, in that order before anything else; afterwards the iteration cap
breaks the loop when the inputs list holds more than 20 items. -/
def runLoop (env : Nat → TurnResult) : Nat → Nat → Nat → LoopOutcome
  | 0, _, _ => .diverged
  | fuel + 1, k, n =>
    let t := env k
    let n' := n + t.growth
    if t.atTriage then
      match t.decision with
      | some d =>
        if d.action = .complete then .completed (k + 1)
        else if 20 < n' then .loopLimit (k + 1)
        else runLoop env fuel (k + 1) n'
      | none => .unexpectedShape (k + 1)
    else
      if 20 < n' then .loopLimit (k + 1)
      else runLoop env fuel (k + 1) n'

/-- Environment of the C5 witness: the triage agent always keeps the turn with
a handoff decision, every run appending five items. -/
def c5env : Nat → TurnResult :=
  fun _ => ⟨5, true, some ⟨TriageAction.handoff_to_french, "routing", []⟩⟩

/-- Environment of the C7 witness: the triage agent immediately emits a
complete decision. -/
def c7env : Nat → TurnResult :=
  fun _ => ⟨1, true, some ⟨TriageAction.complete, "done", []⟩⟩

/-- Membership test on string lists used by the plan validity checker. -/
def memb (x : String) (l : List String) : Bool :=
  l.any (fun y => decide (y = x))

/-- Per-step status of the Workflow Execution Engine of the specification
(section 3, WorkflowStep): pending before dispatch, then completed, failed
or skipped; the transient inProgress phase has no observable duration in the
sequential engine and is subsumed by dispatch itself. -/
inductive StepStatus where
  | pending
  | completed
  | failed
  | skipped
deriving DecidableEq

/-- Engine state: the status of every step id, the failed ancestor recorded
for every failed or skipped step id (the step itself when it failed, the
originating failed step when it was skipped), the recorded workflow results
in order, and the list of step ids whose domain collaborator was invoked. -/
structure ExecState where
  status : String → StepStatus
  blame : String → Option String
  results : List WorkflowResult
  invoked : List String

/-- Pointwise status update. -/
def statusUpdate (f : String → StepStatus) (id : String) (v : StepStatus) :
    String → StepStatus :=
  fun x => if x = id then v else f x

/-- Pointwise failed-ancestor update. -/
def blameUpdate (f : String → Option String) (id : String) (v : Option String) :
    String → Option String :=
  fun x => if x = id then v else f x

/-- Error message recorded for a skipped step, referencing the failed
ancestor that caused the skip. -/
def skipMsg (a : String) : String :=
  "Skipped: ancestor step " ++ a ++ " failed"

/-- Failed ancestor recorded for a terminal step id: itself when it failed,
the blamed originating failed step when it was skipped. The identity default
can only arise off the valid-plan invariant. -/
def blameOf (st : ExecState) (d : String) : String :=
  (st.blame d).getD d

/-- First declared step of the plan carrying the given id. -/
def lookupStep (steps : List WorkflowStep) (id : String) : Option WorkflowStep :=
  steps.find? (fun s => decide (s.step_id = id))

/-- Modelled from the spec: one dispatch of the Workflow Execution Engine
(specification section 4.3), which is absent from src/ (the repository
delegates plan execution to LLM agents). If every dependency of the step has
completed, the step is dispatched to its collaborator (the oracle decides
success) and a result is recorded; a failing step is blamed on itself.
Otherwise the step is skipped without invocation and a failed result is
recorded whose error message references the failed ancestor: the blocking
dependency itself when it failed, or the failed step that dependency was
blamed on when it was skipped, so blame propagates down transitive chains. -/
def execStep (oracle : String → Bool) (steps : List WorkflowStep)
    (st : ExecState) (id : String) : ExecState :=
  match lookupStep steps id with
  | none => st
  | some s =>
    if s.dependencies.all (fun d => decide (st.status d = StepStatus.completed)) then
      let ok := oracle id
      { status := statusUpdate st.status id (if ok then .completed else .failed)
        blame := if ok then st.blame else blameUpdate st.blame id (some id)
        results := st.results ++
          [{ step_id := id, success := ok,
             result := if ok then some (.s "ok") else none,
             error_message := if ok then none else some ("Step " ++ id ++ " failed") }]
        invoked := st.invoked ++ [id] }
    else
      let anc := (s.dependencies.find?
        (fun d => !(decide (st.status d = StepStatus.completed)))).map (blameOf st)
      { status := statusUpdate st.status id .skipped
        blame := blameUpdate st.blame id anc
        results := st.results ++
          [{ step_id := id, success := false, result := none,
             error_message := anc.map skipMsg }]
        invoked := st.invoked }

/-- Modelled from the spec: the engine walks the execution order sequentially,
dispatching each step in turn (specification section 4.3; a sequential walk
of the execution order is one of the dispatch orders the specification allows). -/
def execList (oracle : String → Bool) (steps : List WorkflowStep) :
    ExecState → List String → ExecState
  | st, [] => st
  | st, id :: rest => execList oracle steps (execStep oracle steps st id) rest

/-- Initial engine state: every step pending, no blame, nothing recorded,
nothing invoked. -/
def initExecState : ExecState :=
  { status := fun _ => .pending, blame := fun _ => none,
    results := [], invoked := [] }

/-- Modelled from the spec: full plan execution. -/
def execPlan (oracle : String → Bool) (p : WorkflowPlan) : ExecState :=
  execList oracle p.steps initExecState p.execution_order

/-- Structural validity of an execution order, checked left to right with the
list of already-scheduled ids: each id is fresh, resolves to a declared
step, and that step's dependencies are all already scheduled. -/
def orderOKb (steps : List WorkflowStep) : List String → List String → Bool
  | _, [] => true
  | seen, id :: rest =>
    !(memb id seen) && !(memb id rest) &&
    (match lookupStep steps id with
     | some s => s.dependencies.all (fun d => memb d seen)
     | none => false) &&
    orderOKb steps (id :: seen) rest

/-- Valid plan in the sense of the specification's scheduler invariants:
distinct step ids, an execution order in which every step appears after all
its dependencies, and every declared step scheduled. -/
def ValidPlan (steps : List WorkflowStep) (order : List String) : Bool :=
  decide (steps.map (fun s => s.step_id)).Nodup &&
    orderOKb steps [] order &&
    steps.all (fun s => memb s.step_id order)

/-- Direct dependency of a plan: some declared step with the first id declares
the second id among its dependencies. -/
def directDep (steps : List WorkflowStep) (e d : String) : Prop :=
  ∃ s ∈ steps, s.step_id = e ∧ d ∈ s.dependencies

/-- Transitive dependency relation of a plan, as a chain of direct
dependencies. -/
inductive DepCl (steps : List WorkflowStep) : String → String → Prop where
  | base {e d : String} : directDep steps e d → DepCl steps e d
  | step {e m f : String} : directDep steps e m → DepCl steps m f → DepCl steps e f

/-- Blame invariant of the engine state: a failed step is blamed on itself,
and a skipped step is blamed on a failed step it transitively depends on. -/
def BlameInv (steps : List WorkflowStep) (st : ExecState) : Prop :=
  ∀ x, (st.status x = StepStatus.failed → st.blame x = some x) ∧
    (st.status x = StepStatus.skipped →
      ∃ a, st.blame x = some a ∧ st.status a = StepStatus.failed ∧
        DepCl steps x a)

/-- Steps of the C4 witness plan: validation step V1, an independent step B1,
and execution step E1 depending on V1. -/
def c4steps : List WorkflowStep :=
  [{ step_id := "V1", agent_type := "repair_orders",
     action := "validate_repair_order", parameters := [] },
   { step_id := "B1", agent_type := "parts",
     action := "validate_part_exists", parameters := [] },
   { step_id := "E1", agent_type := "parts",
     action := "add_part_to_order", parameters := [],
     dependencies := ["V1"] }]

/-- C4 witness plan. -/
def c4plan : WorkflowPlan :=
  { request_id := "REQ_W", original_query := "demo",
    steps := c4steps, execution_order := ["V1", "B1", "E1"] }

/-- C4 witness collaborator behaviour: V1 fails, everything else succeeds. -/
def c4oracle : String → Bool :=
  fun id => decide (id ≠ "V1")

/-- C1: the claim states that a plan whose step execute_1 depends on the
nonexistent step id validate_5 makes scheduling fail with
DanglingDependencyError and produce no execution order. The code has no such
validation: on the compound demo query the builder returns the plan with the
dangling dependency together with a fully populated four-element execution
order. -/
theorem c1_dangling_dependency_not_rejected :
    (analyze_multi_domain_request demoQuery).hasDanglingDep = true ∧
    (analyze_multi_domain_request demoQuery).execution_order =
      ["validate_1", "validate_2", "execute_1", "execute_2"] := by
  constructor
  · decide
  · decide

/-- C2: the claim states that for every plan produced by the builder the
execution order is a permutation of the step ids and every dependency of a
step appears strictly earlier in the execution order than the step. On the
compound plan the permutation half holds, but the dependency half fails: the
dependency validate_5 of step execute_1 appears nowhere in the execution
order. -/
theorem c2_execution_order_dependency_violation :
    permCheck (analyze_multi_domain_request demoQuery).execution_order
      (analyze_multi_domain_request demoQuery).stepIds = true ∧
    (analyze_multi_domain_request demoQuery).depsRespectOrder = false ∧
    (∃ s ∈ (analyze_multi_domain_request demoQuery).steps,
      s.step_id = "execute_1" ∧ "validate_5" ∈ s.dependencies ∧
      "validate_5" ∉ (analyze_multi_domain_request demoQuery).execution_order) := by
  refine ⟨by decide, by decide, ?_⟩
  decide

/-- C3: the claim states that on a query containing both phrases the compound
plan has two validation steps followed by two execution steps, the payment
step depends on the part-addition step, every execution step depends on the
full set of validation steps certifying its entities, and the execution order
has four elements. On the specification's example query all of this holds
except the validation dependencies of the part-addition step: execute_1
touches RO_001 and PART_001, which are certified by validate_1 and
validate_2, yet its dependency list is exactly the nonexistent validate_5. -/
theorem c3_compound_plan_missing_validation_deps :
    (analyze_multi_domain_request specQuery).stepIds =
      ["validate_1", "validate_2", "execute_1", "execute_2"] ∧
    ((analyze_multi_domain_request specQuery).steps.map
      (fun s => s.agent_type)) = ["repair_orders", "parts", "parts", "payment"] ∧
    ((analyze_multi_domain_request specQuery).steps.find?
      (fun s => s.step_id = "execute_2")).map (fun s => s.dependencies) =
      some ["execute_1"] ∧
    (analyze_multi_domain_request specQuery).execution_order.length = 4 ∧
    ((analyze_multi_domain_request specQuery).steps.find?
      (fun s => s.step_id = "execute_1")).map (fun s => s.dependencies) =
      some ["validate_5"] ∧
    (∀ s ∈ (analyze_multi_domain_request specQuery).steps,
      s.step_id = "execute_1" →
        "validate_1" ∉ s.dependencies ∧ "validate_2" ∉ s.dependencies) := by
  refine ⟨by decide, by decide, by decide, by decide, by decide, ?_⟩
  decide

/-- C8 counterexample: the success envelope of get_repair_order_details for
the known repair order RO_001 carries no message key, so the claimed uniform
envelope shape fails at this concrete input. -/
theorem c8_envelope_counterexample :
    (get_repair_order_details "RO_001").uniformShape = false ∧
    ((get_repair_order_details "RO_001").get "message").isSome = false := by
  constructor
  · decide
  · decide

/-- C8 amended: every collaborator operation returns the core envelope (boolean
success flag, tool name, result payload on success, error payload on failure)
on every branch; the message key is present on every branch except the
success branches of the two lookup tools, where it is absent; the mcp_server
source identifier is present on every branch except the validation-failure
branches of create_payment_link, where it is absent. -/
theorem c8_envelope_amended :
    (∀ ro, (get_repair_order_details ro).envCore = true ∧
      ((get_repair_order_details ro).get "mcp_server").isSome = true ∧
      ((get_repair_order_details ro).get "message").isSome =
        !(get_repair_order_details ro).isSuccess) ∧
    (∀ pn, (get_part_by_number pn).envCore = true ∧
      ((get_part_by_number pn).get "mcp_server").isSome = true ∧
      ((get_part_by_number pn).get "message").isSome =
        !(get_part_by_number pn).isSuccess) ∧
    (∀ ro pn q, (add_part_to_repair_order ro pn q).envCore = true ∧
      ((add_part_to_repair_order ro pn q).get "mcp_server").isSome = true ∧
      ((add_part_to_repair_order ro pn q).get "message").isSome = true) ∧
    (∀ ro amt em cur, (create_payment_link ro amt em cur).envCore = true ∧
      ((create_payment_link ro amt em cur).get "message").isSome = true ∧
      ((create_payment_link ro amt em cur).get "mcp_server").isSome =
        (create_payment_link ro amt em cur).isSuccess) := by
  refine ⟨fun ro => ?_, fun pn => ?_, fun ro pn q => ?_, fun ro amt em cur => ?_⟩
  · by_cases h : ro = "RO_001" <;>
      simp [get_repair_order_details, h, Envelope.envCore, Envelope.get,
        Envelope.successFlag, Envelope.isSuccess, JVal.asBool]
  · by_cases h : pn = "PART_001" <;>
      simp [get_part_by_number, h, Envelope.envCore, Envelope.get,
        Envelope.successFlag, Envelope.isSuccess, JVal.asBool]
  · simp [add_part_to_repair_order, Envelope.envCore, Envelope.get,
      Envelope.successFlag, Envelope.isSuccess, JVal.asBool]
  · by_cases h1 : email_ok em
    · by_cases h2 : (decide (amt ≤ 0) || decide (amt > 999999999)) = true
      · simp [create_payment_link, h1, h2, Envelope.envCore, Envelope.get,
          Envelope.successFlag, Envelope.isSuccess, JVal.asBool]
      · simp [create_payment_link, h1, h2, Envelope.envCore, Envelope.get,
          Envelope.successFlag, Envelope.isSuccess, JVal.asBool]
    · simp [create_payment_link, h1, Envelope.envCore, Envelope.get,
        Envelope.successFlag, Envelope.isSuccess, JVal.asBool]

/-- C9: the mutating execution-phase operation add_part_to_repair_order
returns a success envelope for every input; it has no failure branch and
inspects none of its arguments, so the step can never fail. -/
theorem c9_add_part_always_succeeds :
    ∀ ro pn q, (add_part_to_repair_order ro pn q).successFlag = some true ∧
      (add_part_to_repair_order ro pn q).get "error" = none := by
  intro ro pn q
  constructor
  · rfl
  · rfl

/-- C6: symbol and exchange extraction applies its four patterns in priority
order (explicit EXCHANGE:SYMBOL token, SYMBOL on/at/traded at EXCHANGE
phrase, EXCHANGE SYMBOL pair, then the known-symbol table defaulting to NSE)
and yields the four behaviours of the specification's examples. -/
theorem c6_symbol_parsing_examples :
    parse_symbol_from_query "NSE:RELIANCE" = (some "RELIANCE", some "NSE") ∧
    parse_symbol_from_query "RELIANCE on BSE" = (some "RELIANCE", some "BSE") ∧
    parse_symbol_from_query "tell me about TCS" = (some "TCS", some "NSE") ∧
    parse_symbol_from_query "random unrelated text" = (none, none) := by
  refine ⟨?_, ?_, ?_, ?_⟩ <;> decide

/-- C10: for every input string the extraction returns either a pair with both
symbol and exchange present, or the pair of two absent values; in particular
a symbol is never returned with an absent exchange, since every match path
including the known-symbol fallback supplies an exchange. -/
theorem c10_parse_both_or_neither :
    ∀ q : String,
      (∃ sym ex, parse_symbol_from_query q = (some sym, some ex)) ∨
      parse_symbol_from_query q = (none, none) := by
  intro q
  unfold parse_symbol_from_query
  cases h : parseSymbolCore (q.toList.map asciiUpper) with
  | none => exact Or.inr rfl
  | some r => exact Or.inl ⟨r.1, r.2, rfl⟩

/-- Bound lemma for the conversation loop: with every run appending at least
one item, the loop starting after k invocations with n items reaches a
terminal outcome within the remaining budget. -/
theorem runLoop_bound (env : Nat → TurnResult) (Hg : ∀ k, 1 ≤ (env k).growth) :
    ∀ fuel k n, n ≤ 20 → 21 ≤ n + fuel →
      ∃ t, (runLoop env fuel k n).turns = some t ∧ t ≤ k + (21 - n) := by
  intro fuel
  induction fuel with
  | zero => intro k n h1 h2; omega
  | succ fuel ih =>
    intro k n h1 h2
    have hg := Hg k
    simp only [runLoop]
    by_cases hT : (env k).atTriage = true
    · simp only [hT, if_true]
      cases hD : (env k).decision with
      | none => exact ⟨k + 1, rfl, by omega⟩
      | some d =>
        by_cases hc : d.action = TriageAction.complete
        · simp only [hc, if_true]
          exact ⟨k + 1, rfl, by omega⟩
        · simp only [hc, if_false]
          by_cases hcap : 20 < n + (env k).growth
          · simp only [hcap, if_true]
            exact ⟨k + 1, rfl, by omega⟩
          · simp only [hcap, if_false]
            obtain ⟨t, ht, hb⟩ := ih (k + 1) (n + (env k).growth)
              (by omega) (by omega)
            exact ⟨t, ht, by omega⟩
    · simp only [hT, if_false]
      by_cases hcap : 20 < n + (env k).growth
      · simp only [hcap, if_true]
        exact ⟨k + 1, rfl, by omega⟩
      · simp only [hcap, if_false]
        obtain ⟨t, ht, hb⟩ := ih (k + 1) (n + (env k).growth)
          (by omega) (by omega)
        exact ⟨t, ht, by omega⟩

/-- Cap lemma for the conversation loop: if the triage agent always produces a
well-formed decision that is never complete, the loop reaches the iteration
cap and reports the loop-limit outcome. -/
theorem runLoop_capped (env : Nat → TurnResult) (Hg : ∀ k, 1 ≤ (env k).growth)
    (Hnc : ∀ k, (env k).atTriage = true →
      ∃ d, (env k).decision = some d ∧ d.action ≠ TriageAction.complete) :
    ∀ fuel k n, n ≤ 20 → 21 ≤ n + fuel →
      ∃ t, runLoop env fuel k n = .loopLimit t ∧ t ≤ k + (21 - n) := by
  intro fuel
  induction fuel with
  | zero => intro k n h1 h2; omega
  | succ fuel ih =>
    intro k n h1 h2
    have hg := Hg k
    simp only [runLoop]
    by_cases hT : (env k).atTriage = true
    · obtain ⟨d, hd, hne⟩ := Hnc k hT
      simp only [hT, if_true, hd, hne, if_false]
      by_cases hcap : 20 < n + (env k).growth
      · simp only [hcap, if_true]
        exact ⟨k + 1, rfl, by omega⟩
      · simp only [hcap, if_false]
        obtain ⟨t, ht, hb⟩ := ih (k + 1) (n + (env k).growth)
          (by omega) (by omega)
        exact ⟨t, ht, by omega⟩
    · simp only [hT, if_false]
      by_cases hcap : 20 < n + (env k).growth
      · simp only [hcap, if_true]
        exact ⟨k + 1, rfl, by omega⟩
      · simp only [hcap, if_false]
        obtain ⟨t, ht, hb⟩ := ih (k + 1) (n + (env k).growth)
          (by omega) (by omega)
        exact ⟨t, ht, by omega⟩

/-- C5: run from the start (no invocations yet, a single user message in the
inputs list, fuel exceeding the cap), the conversation loop always reaches a
terminal outcome within 20 invocations, and when the triage agent keeps
producing well-formed decisions that are never complete the outcome is the
distinct loop-limit report, never a silent non-termination. -/
theorem c5_loop_termination_and_cap (env : Nat → TurnResult)
    (Hg : ∀ k, 1 ≤ (env k).growth) :
    (∃ t, (runLoop env 21 0 1).turns = some t ∧ t ≤ 20) ∧
    ((∀ k, (env k).atTriage = true →
        ∃ d, (env k).decision = some d ∧ d.action ≠ TriageAction.complete) →
      ∃ t, runLoop env 21 0 1 = .loopLimit t ∧ t ≤ 20) := by
  constructor
  · obtain ⟨t, ht, hb⟩ := runLoop_bound env Hg 21 0 1 (by omega) (by omega)
    exact ⟨t, ht, by omega⟩
  · intro Hnc
    obtain ⟨t, ht, hb⟩ := runLoop_capped env Hg Hnc 21 0 1 (by omega) (by omega)
    exact ⟨t, ht, by omega⟩

/-- C7: whenever control is back at the triage agent and its structured
decision has the complete action, the loop breaks immediately: the run that
produced the decision is the last invocation of the exchange, and no further
handoff occurs. -/
theorem c7_complete_is_terminal (env : Nat → TurnResult) (fuel k n : Nat)
    (hf : 1 ≤ fuel) (d : TriageDecision) (hT : (env k).atTriage = true)
    (hD : (env k).decision = some d) (hc : d.action = TriageAction.complete) :
    runLoop env fuel k n = .completed (k + 1) := by
  cases fuel with
  | zero => omega
  | succ fuel => simp only [runLoop, hT, if_true, hD, hc]

/-- Witness for C5: the hypotheses hold of the concrete environment and the
loop reports the loop-limit outcome within the cap. -/
theorem c5_loop_termination_and_cap_witness :
    (∀ k, 1 ≤ (c5env k).growth) ∧
    (∃ t, runLoop c5env 21 0 1 = .loopLimit t ∧ t ≤ 20) :=
  ⟨fun k => @Nat.le.intro 1 (c5env k).growth 4 rfl,
   (c5_loop_termination_and_cap c5env (fun k => @Nat.le.intro 1 (c5env k).growth 4 rfl)).2
     (fun _ _ => ⟨⟨TriageAction.handoff_to_french, "routing", []⟩, rfl, by decide⟩)⟩

/-- Witness for C7: on the concrete environment the first complete decision
ends the exchange after exactly one invocation. -/
theorem c7_complete_is_terminal_witness :
    (c7env 0).atTriage = true ∧
    (c7env 0).decision = some ⟨TriageAction.complete, "done", []⟩ ∧
    runLoop c7env 21 0 1 = .completed 1 :=
  ⟨rfl, rfl,
   c7_complete_is_terminal c7env 21 0 1 (by omega)
     ⟨TriageAction.complete, "done", []⟩ rfl rfl rfl⟩

/-- Membership test agrees with list membership. -/
theorem memb_iff {x : String} {l : List String} : memb x l = true ↔ x ∈ l := by
  simp [memb, List.any_eq_true]

/-- One dispatch leaves the status of every other id unchanged. -/
theorem execStep_status_ne (oracle : String → Bool) (steps : List WorkflowStep)
    (st : ExecState) (id x : String) (h : x ≠ id) :
    (execStep oracle steps st id).status x = st.status x := by
  unfold execStep
  cases lookupStep steps id with
  | none => rfl
  | some s =>
    by_cases hd : s.dependencies.all (fun d => decide (st.status d = StepStatus.completed)) = true
    · simp [hd, statusUpdate, h]
    · simp [hd, statusUpdate, h]

/-- One dispatch preserves recorded results. -/
theorem execStep_results_mono (oracle : String → Bool) (steps : List WorkflowStep)
    (st : ExecState) (id : String) {r : WorkflowResult} (h : r ∈ st.results) :
    r ∈ (execStep oracle steps st id).results := by
  unfold execStep
  cases lookupStep steps id with
  | none => exact h
  | some s =>
    by_cases hd : s.dependencies.all (fun d => decide (st.status d = StepStatus.completed)) = true
    · simp [hd]; exact Or.inl h
    · simp [hd]; exact Or.inl h

/-- One dispatch preserves the invocation record. -/
theorem execStep_invoked_mono (oracle : String → Bool) (steps : List WorkflowStep)
    (st : ExecState) (id : String) {x : String} (h : x ∈ st.invoked) :
    x ∈ (execStep oracle steps st id).invoked := by
  unfold execStep
  cases lookupStep steps id with
  | none => exact h
  | some s =>
    by_cases hd : s.dependencies.all (fun d => decide (st.status d = StepStatus.completed)) = true
    · simp [hd]; exact Or.inl h
    · simp [hd]; exact h

/-- One dispatch invokes at most its own step. -/
theorem execStep_invoked_sub (oracle : String → Bool) (steps : List WorkflowStep)
    (st : ExecState) (id : String) {x : String}
    (h : x ∈ (execStep oracle steps st id).invoked) :
    x ∈ st.invoked ∨ x = id := by
  revert h
  unfold execStep
  cases lookupStep steps id with
  | none => exact fun h => Or.inl h
  | some s =>
    by_cases hd : s.dependencies.all (fun d => decide (st.status d = StepStatus.completed)) = true
    · simp [hd]
    · simp [hd]
      exact fun h => Or.inl h

/-- Executing a list of steps leaves the status of every id outside the list
unchanged. -/
theorem execList_status_stable (oracle : String → Bool) (steps : List WorkflowStep) :
    ∀ (R : List String) (st : ExecState) (x : String), x ∉ R →
      (execList oracle steps st R).status x = st.status x := by
  intro R
  induction R with
  | nil => intro st x _; rfl
  | cons id rest ih =>
    intro st x hx
    have hxid : x ≠ id := fun h => hx (h ▸ List.mem_cons_self id rest)
    have hxrest : x ∉ rest := fun h => hx (List.mem_cons_of_mem id h)
    calc (execList oracle steps st (id :: rest)).status x
        = (execStep oracle steps st id).status x := ih _ x hxrest
      _ = st.status x := execStep_status_ne oracle steps st id x hxid

/-- Executing a list of steps preserves recorded results. -/
theorem execList_results_mono (oracle : String → Bool) (steps : List WorkflowStep) :
    ∀ (R : List String) (st : ExecState) {r : WorkflowResult}, r ∈ st.results →
      r ∈ (execList oracle steps st R).results := by
  intro R
  induction R with
  | nil => intro st r h; exact h
  | cons id rest ih =>
    intro st r h
    exact ih _ (execStep_results_mono oracle steps st id h)

/-- Executing a list of steps preserves the invocation record. -/
theorem execList_invoked_mono (oracle : String → Bool) (steps : List WorkflowStep) :
    ∀ (R : List String) (st : ExecState) {x : String}, x ∈ st.invoked →
      x ∈ (execList oracle steps st R).invoked := by
  intro R
  induction R with
  | nil => intro st x h; exact h
  | cons id rest ih =>
    intro st x h
    exact ih _ (execStep_invoked_mono oracle steps st id h)

/-- Every invocation recorded while executing a list of steps concerns a
previously recorded id or a member of the list. -/
theorem execList_invoked_sub (oracle : String → Bool) (steps : List WorkflowStep) :
    ∀ (R : List String) (st : ExecState) {x : String},
      x ∈ (execList oracle steps st R).invoked →
      x ∈ st.invoked ∨ x ∈ R := by
  intro R
  induction R with
  | nil => intro st x h; exact Or.inl h
  | cons id rest ih =>
    intro st x h
    rcases ih _ h with h' | h'
    · rcases execStep_invoked_sub oracle steps st id h' with h'' | h''
      · exact Or.inl h''
      · exact Or.inr (h'' ▸ List.mem_cons_self id rest)
    · exact Or.inr (List.mem_cons_of_mem id h')

/-- Unfolding of one dispatch when the step id resolves. -/
theorem execStep_eq_some (oracle : String → Bool) (steps : List WorkflowStep)
    (st : ExecState) (id : String) (s : WorkflowStep)
    (hs : lookupStep steps id = some s) :
    execStep oracle steps st id =
      if s.dependencies.all (fun d => decide (st.status d = StepStatus.completed)) then
        { status := statusUpdate st.status id
            (if oracle id then .completed else .failed)
          blame := if oracle id then st.blame
            else blameUpdate st.blame id (some id)
          results := st.results ++
            [{ step_id := id, success := oracle id,
               result := if oracle id then some (.s "ok") else none,
               error_message := if oracle id then none
                 else some ("Step " ++ id ++ " failed") }]
          invoked := st.invoked ++ [id] }
      else
        { status := statusUpdate st.status id .skipped
          blame := blameUpdate st.blame id
            ((s.dependencies.find?
               (fun d => !(decide (st.status d = StepStatus.completed)))).map
               (blameOf st))
          results := st.results ++
            [{ step_id := id, success := false, result := none,
               error_message :=
                 ((s.dependencies.find?
                   (fun d => !(decide (st.status d = StepStatus.completed)))).map
                   (blameOf st)).map skipMsg }]
          invoked := st.invoked } := by
  unfold execStep
  rw [hs]

/-- Status of the dispatched step itself is terminal after the dispatch. -/
theorem execStep_status_self (oracle : String → Bool) (steps : List WorkflowStep)
    (st : ExecState) (id : String) (s : WorkflowStep)
    (hs : lookupStep steps id = some s) :
    (execStep oracle steps st id).status id ≠ StepStatus.pending := by
  rw [execStep_eq_some oracle steps st id s hs]
  by_cases hd : s.dependencies.all (fun d => decide (st.status d = StepStatus.completed)) = true
  · simp only [hd, if_true]
    cases oracle id <;> simp [statusUpdate]
  · simp only [hd, if_false]
    simp [statusUpdate]

/-- Failing membership test means non-membership. -/
theorem not_mem_of_memb_false {x : String} {l : List String}
    (h : memb x l = false) : x ∉ l :=
  fun hm => by rw [memb_iff.mpr hm] at h; cases h

/-- Preservation of the blame invariant across one dispatch: a newly failed
step is blamed on itself, and a newly skipped step inherits the blame of its
blocking dependency - the dependency itself when it failed, or the failed
ancestor that dependency was already blamed on when it was skipped. -/
theorem execStep_blame_inv (oracle : String → Bool) (steps : List WorkflowStep)
    (st : ExecState) (id : String) (s : WorkflowStep)
    (hl : lookupStep steps id = some s)
    (hdepnp : ∀ d ∈ s.dependencies, st.status d ≠ StepStatus.pending)
    (hidpend : st.status id = StepStatus.pending)
    (hbl : BlameInv steps st) :
    BlameInv steps (execStep oracle steps st id) := by
  have hl2 : steps.find? (fun t => decide (t.step_id = id)) = some s := hl
  have hsmem : s ∈ steps := List.mem_of_find?_eq_some hl2
  have hsidb := List.find?_some hl2
  have hsid : s.step_id = id := of_decide_eq_true hsidb
  have hdir : ∀ d ∈ s.dependencies, directDep steps id d := fun d hd =>
    ⟨s, hsmem, hsid, hd⟩
  rw [execStep_eq_some oracle steps st id s hl]
  by_cases hOK : s.dependencies.all
      (fun d => decide (st.status d = StepStatus.completed)) = true
  · rw [if_pos hOK]
    intro x
    constructor
    · intro hfail
      by_cases hx : x = id
      · subst hx
        simp only [statusUpdate, if_pos rfl] at hfail
        cases ho : oracle x with
        | true => rw [ho] at hfail; simp at hfail
        | false => simp [ho, blameUpdate]
      · simp only [statusUpdate, if_neg hx] at hfail
        have hb := (hbl x).1 hfail
        cases ho : oracle id <;> simp [ho, blameUpdate, hx, hb]
    · intro hskip
      by_cases hx : x = id
      · subst hx
        simp only [statusUpdate, if_pos rfl] at hskip
        cases ho : oracle x <;> rw [ho] at hskip <;> simp at hskip
      · simp only [statusUpdate, if_neg hx] at hskip
        obtain ⟨a, hba, hfa, hdep⟩ := (hbl x).2 hskip
        have hane : a ≠ id := fun h => by rw [h, hidpend] at hfa; cases hfa
        refine ⟨a, ?_, ?_, hdep⟩
        · cases ho : oracle id <;> simp [ho, blameUpdate, hx, hba]
        · simp [statusUpdate, hane, hfa]
  · rw [if_neg hOK]
    have hex : ∃ d ∈ s.dependencies, st.status d ≠ StepStatus.completed := by
      by_contra hno
      push_neg at hno
      exact hOK (List.all_eq_true.mpr (fun d hd => decide_eq_true (hno d hd)))
    obtain ⟨d, hd, hdne⟩ := hex
    have hfindsome : (s.dependencies.find?
        (fun x => !(decide (st.status x = StepStatus.completed)))).isSome := by
      apply List.find?_isSome.mpr
      exact ⟨d, hd, by simp [hdne]⟩
    obtain ⟨d0, hd0⟩ := Option.isSome_iff_exists.mp hfindsome
    have hd0mem : d0 ∈ s.dependencies := List.mem_of_find?_eq_some hd0
    have hd0ne : st.status d0 ≠ StepStatus.completed := by
      have hp := List.find?_some hd0
      simpa using hp
    have hd0np : st.status d0 ≠ StepStatus.pending := hdepnp d0 hd0mem
    have hanc : ∃ a, blameOf st d0 = a ∧ st.status a = StepStatus.failed ∧
        DepCl steps id a := by
      cases hcase : st.status d0 with
      | pending => exact absurd hcase hd0np
      | completed => exact absurd hcase hd0ne
      | failed =>
        have hb := (hbl d0).1 hcase
        exact ⟨d0, by simp [blameOf, hb], hcase, DepCl.base (hdir d0 hd0mem)⟩
      | skipped =>
        obtain ⟨a, hba, hfa, hdep⟩ := (hbl d0).2 hcase
        exact ⟨a, by simp [blameOf, hba], hfa, DepCl.step (hdir d0 hd0mem) hdep⟩
    obtain ⟨a, hae, hfa, hdepa⟩ := hanc
    intro x
    constructor
    · intro hfail
      by_cases hx : x = id
      · subst hx
        simp only [statusUpdate, if_pos rfl] at hfail
        cases hfail
      · simp only [statusUpdate, if_neg hx] at hfail
        have hb := (hbl x).1 hfail
        simp [blameUpdate, hx, hb]
    · intro hskip
      by_cases hx : x = id
      · subst hx
        refine ⟨a, ?_, ?_, hdepa⟩
        · simp [blameUpdate, hd0, hae]
        · have hane : a ≠ x := fun h => by rw [h, hidpend] at hfa; cases hfa
          simp [statusUpdate, hane, hfa]
      · simp only [statusUpdate, if_neg hx] at hskip
        obtain ⟨a', hba', hfa', hdep'⟩ := (hbl x).2 hskip
        have hane : a' ≠ id := fun h => by rw [h, hidpend] at hfa'; cases hfa'
        refine ⟨a', ?_, ?_, hdep'⟩
        · simp [blameUpdate, hx, hba']
        · simp [statusUpdate, hane, hfa']

/-- Characterization of the engine on a structurally valid remaining order:
a scheduled step whose dependencies all complete is invoked, ends completed
or failed according to its collaborator, and has a result with its success
flag; a scheduled step one of whose dependencies does not complete ends
skipped without invocation and has a failed result whose error message
references a failed ancestor of the step. -/
theorem execList_char (oracle : String → Bool) (steps : List WorkflowStep) :
    ∀ (R : List String), ∀ (seen : List String) (st : ExecState),
      orderOKb steps seen R = true →
      (∀ x ∈ seen, x ∉ R) →
      (∀ x, st.status x ≠ StepStatus.pending ↔ x ∈ seen) →
      (∀ x ∈ st.invoked, x ∈ seen) →
      BlameInv steps st →
      ∀ e ∈ R, ∀ s, lookupStep steps e = some s →
        ((∀ d ∈ s.dependencies,
            (execList oracle steps st R).status d = StepStatus.completed) →
          e ∈ (execList oracle steps st R).invoked ∧
          (execList oracle steps st R).status e =
            (if oracle e then StepStatus.completed else StepStatus.failed) ∧
          ∃ r ∈ (execList oracle steps st R).results,
            r.step_id = e ∧ r.success = oracle e) ∧
        ((∃ d ∈ s.dependencies,
            (execList oracle steps st R).status d ≠ StepStatus.completed) →
          (execList oracle steps st R).status e = StepStatus.skipped ∧
          e ∉ (execList oracle steps st R).invoked ∧
          ∃ r ∈ (execList oracle steps st R).results,
            r.step_id = e ∧ r.success = false ∧
            ∃ a, (execList oracle steps st R).status a = StepStatus.failed ∧
              DepCl steps e a ∧ r.error_message = some (skipMsg a)) := by
  intro R
  induction R with
  | nil =>
    intro seen st _ _ _ _ _ e he
    cases he
  | cons id rest ih =>
    intro seen st horder hdisj hstat hinv hbl e he s hs
    rw [orderOKb] at horder
    simp only [Bool.and_eq_true, Bool.not_eq_true'] at horder
    obtain ⟨⟨⟨h1, h2⟩, h3⟩, h4⟩ := horder
    have hidseen : id ∉ seen := not_mem_of_memb_false h1
    have hidrest : id ∉ rest := not_mem_of_memb_false h2
    cases hl : lookupStep steps id with
    | none => rw [hl] at h3; cases h3
    | some s0 =>
    have h3' : s0.dependencies.all (fun d => memb d seen) = true := by
      rw [hl] at h3; exact h3
    have hdeps_seen : ∀ d ∈ s0.dependencies, d ∈ seen := fun d hd =>
      memb_iff.mp (List.all_eq_true.mp h3' d hd)
    have hdepnp : ∀ d ∈ s0.dependencies, st.status d ≠ StepStatus.pending :=
      fun d hd => (hstat d).mpr (hdeps_seen d hd)
    have hidpend : st.status id = StepStatus.pending := by
      by_contra hne
      exact hidseen ((hstat id).mp hne)
    have hdisj' : ∀ x ∈ id :: seen, x ∉ rest := by
      intro x hx
      rcases List.mem_cons.mp hx with rfl | hx'
      · exact hidrest
      · exact fun hr => hdisj x hx' (List.mem_cons_of_mem id hr)
    have hstat' : ∀ x, (execStep oracle steps st id).status x ≠ StepStatus.pending
        ↔ x ∈ id :: seen := by
      intro x
      by_cases hx : x = id
      · subst hx
        exact ⟨fun _ => List.mem_cons_self x seen,
          fun _ => execStep_status_self oracle steps st x s0 hl⟩
      · rw [execStep_status_ne oracle steps st id x hx, hstat x]
        constructor
        · exact fun h => List.mem_cons_of_mem id h
        · intro h
          rcases List.mem_cons.mp h with rfl | h'
          · exact absurd rfl hx
          · exact h'
    have hinv' : ∀ x ∈ (execStep oracle steps st id).invoked, x ∈ id :: seen := by
      intro x hx
      rcases execStep_invoked_sub oracle steps st id hx with h' | rfl
      · exact List.mem_cons_of_mem id (hinv x h')
      · exact List.mem_cons_self x seen
    have hbl' : BlameInv steps (execStep oracle steps st id) :=
      execStep_blame_inv oracle steps st id s0 hl hdepnp hidpend hbl
    simp only [execList]
    rcases List.mem_cons.mp he with rfl | he'
    · rw [hl] at hs
      obtain rfl : s0 = s := Option.some.inj hs
      have hFd : ∀ d ∈ s0.dependencies,
          (execList oracle steps (execStep oracle steps st e) rest).status d
            = st.status d := by
        intro d hd
        have hdseen := hdeps_seen d hd
        have hdrest : d ∉ rest := hdisj' d (List.mem_cons_of_mem e hdseen)
        have hdne : d ≠ e := fun h => hidseen (h ▸ hdseen)
        rw [execList_status_stable oracle steps rest _ d hdrest,
          execStep_status_ne oracle steps st e d hdne]
      constructor
      · intro hAll
        have hOK : s0.dependencies.all
            (fun d => decide (st.status d = StepStatus.completed)) = true := by
          apply List.all_eq_true.mpr
          intro d hd
          exact decide_eq_true ((hFd d hd).symm.trans (hAll d hd))
        have hstep := execStep_eq_some oracle steps st e s0 hl
        have hinv_self : e ∈ (execStep oracle steps st e).invoked := by
          rw [hstep, if_pos hOK]
          simp
        have hstat_self : (execStep oracle steps st e).status e
            = (if oracle e then StepStatus.completed else StepStatus.failed) := by
          rw [hstep, if_pos hOK]
          simp [statusUpdate]
        have hres_self :
            ({ step_id := e, success := oracle e,
               result := if oracle e then some (JVal.s "ok") else none,
               error_message := if oracle e then none
                 else some ("Step " ++ e ++ " failed") } : WorkflowResult)
              ∈ (execStep oracle steps st e).results := by
          rw [hstep, if_pos hOK]
          simp
        refine ⟨execList_invoked_mono oracle steps rest _ hinv_self, ?_, ?_⟩
        · rw [execList_status_stable oracle steps rest _ e hidrest, hstat_self]
        · exact ⟨_, execList_results_mono oracle steps rest _ hres_self, rfl, rfl⟩
      · rintro ⟨d, hd, hdne⟩
        have hstd : st.status d ≠ StepStatus.completed :=
          fun h => hdne ((hFd d hd).trans h)
        have hOKn : ¬(s0.dependencies.all
            (fun x => decide (st.status x = StepStatus.completed)) = true) :=
          fun h => absurd (of_decide_eq_true (List.all_eq_true.mp h d hd)) hstd
        have hfindsome : (s0.dependencies.find?
            (fun x => !(decide (st.status x = StepStatus.completed)))).isSome := by
          apply List.find?_isSome.mpr
          exact ⟨d, hd, by simp [hstd]⟩
        obtain ⟨d0, hd0⟩ := Option.isSome_iff_exists.mp hfindsome
        have hd0mem : d0 ∈ s0.dependencies := List.mem_of_find?_eq_some hd0
        have hd0ne : st.status d0 ≠ StepStatus.completed := by
          have hp := List.find?_some hd0
          simpa using hp
        have hd0np : st.status d0 ≠ StepStatus.pending := hdepnp d0 hd0mem
        have hl2 : steps.find? (fun t => decide (t.step_id = e)) = some s0 := hl
        have hsmem : s0 ∈ steps := List.mem_of_find?_eq_some hl2
        have hsidb := List.find?_some hl2
        have hsid : s0.step_id = e := of_decide_eq_true hsidb
        have hdir : ∀ d ∈ s0.dependencies, directDep steps e d := fun d hd =>
          ⟨s0, hsmem, hsid, hd⟩
        have hanc : ∃ a, blameOf st d0 = a ∧ st.status a = StepStatus.failed ∧
            DepCl steps e a := by
          cases hcase : st.status d0 with
          | pending => exact absurd hcase hd0np
          | completed => exact absurd hcase hd0ne
          | failed =>
            have hb := (hbl d0).1 hcase
            exact ⟨d0, by simp [blameOf, hb], hcase, DepCl.base (hdir d0 hd0mem)⟩
          | skipped =>
            obtain ⟨a, hba, hfa, hdep⟩ := (hbl d0).2 hcase
            exact ⟨a, by simp [blameOf, hba], hfa,
              DepCl.step (hdir d0 hd0mem) hdep⟩
        obtain ⟨a, hae, hfa, hdepa⟩ := hanc
        have haseen : a ∈ seen := (hstat a).mp (by rw [hfa]; intro hc; cases hc)
        have hane : a ≠ e := fun h => by rw [h, hidpend] at hfa; cases hfa
        have haF : (execList oracle steps (execStep oracle steps st e) rest).status a
            = StepStatus.failed := by
          rw [execList_status_stable oracle steps rest _ a
              (hdisj' a (List.mem_cons_of_mem e haseen)),
            execStep_status_ne oracle steps st e a hane]
          exact hfa
        have hstep := execStep_eq_some oracle steps st e s0 hl
        have hstat_self : (execStep oracle steps st e).status e
            = StepStatus.skipped := by
          rw [hstep, if_neg hOKn]
          simp [statusUpdate]
        have hinv_eq : (execStep oracle steps st e).invoked = st.invoked := by
          rw [hstep, if_neg hOKn]
        have hres_self :
            ({ step_id := e, success := false, result := none,
               error_message := some (skipMsg a) } : WorkflowResult)
              ∈ (execStep oracle steps st e).results := by
          rw [hstep, if_neg hOKn, hd0]
          simp [hae]
        refine ⟨?_, ?_, ?_⟩
        · rw [execList_status_stable oracle steps rest _ e hidrest, hstat_self]
        · intro hmem
          rcases execList_invoked_sub oracle steps rest _ hmem with h' | h'
          · rw [hinv_eq] at h'
            exact hidseen (hinv e h')
          · exact hidrest h'
        · exact ⟨_, execList_results_mono oracle steps rest _ hres_self,
            rfl, rfl, a, haF, hdepa, rfl⟩
    · exact ih (id :: seen) (execStep oracle steps st id) h4 hdisj' hstat' hinv'
        hbl' e he' s hs
/-- Independence of branches: a scheduled step all of whose transitive
dependencies succeed is invoked, and completes or fails solely according to
its own collaborator. The fourth state hypothesis carries the completion
invariant for already-processed steps. -/
theorem execList_indep (oracle : String → Bool) (steps : List WorkflowStep) :
    ∀ (R : List String), ∀ (seen : List String) (st : ExecState),
      orderOKb steps seen R = true →
      (∀ x ∈ seen, x ∉ R) →
      (∀ x, st.status x ≠ StepStatus.pending ↔ x ∈ seen) →
      (∀ x ∈ seen, (∀ a, DepCl steps x a → oracle a = true) → oracle x = true →
        st.status x = StepStatus.completed) →
      ∀ e ∈ R, (∀ a, DepCl steps e a → oracle a = true) →
        e ∈ (execList oracle steps st R).invoked ∧
        (execList oracle steps st R).status e =
          (if oracle e then StepStatus.completed else StepStatus.failed) := by
  intro R
  induction R with
  | nil =>
    intro seen st _ _ _ _ e he
    cases he
  | cons id rest ih =>
    intro seen st horder hdisj hstat hcomp e he hanc
    rw [orderOKb] at horder
    simp only [Bool.and_eq_true, Bool.not_eq_true'] at horder
    obtain ⟨⟨⟨h1, h2⟩, h3⟩, h4⟩ := horder
    have hidseen : id ∉ seen := not_mem_of_memb_false h1
    have hidrest : id ∉ rest := not_mem_of_memb_false h2
    cases hl : lookupStep steps id with
    | none => rw [hl] at h3; cases h3
    | some s0 =>
    have h3' : s0.dependencies.all (fun d => memb d seen) = true := by
      rw [hl] at h3; exact h3
    have hdeps_seen : ∀ d ∈ s0.dependencies, d ∈ seen := fun d hd =>
      memb_iff.mp (List.all_eq_true.mp h3' d hd)
    have hl2 : steps.find? (fun s => decide (s.step_id = id)) = some s0 := hl
    have hs0mem : s0 ∈ steps := List.mem_of_find?_eq_some hl2
    have hs0idb := List.find?_some hl2
    have hs0id : s0.step_id = id := of_decide_eq_true hs0idb
    have hdir : ∀ d ∈ s0.dependencies, directDep steps id d := fun d hd =>
      ⟨s0, hs0mem, hs0id, hd⟩
    have hdepsOK : (∀ a, DepCl steps id a → oracle a = true) →
        s0.dependencies.all
          (fun d => decide (st.status d = StepStatus.completed)) = true := by
      intro hancid
      apply List.all_eq_true.mpr
      intro d hd
      apply decide_eq_true
      exact hcomp d (hdeps_seen d hd)
        (fun a ha => hancid a (DepCl.step (hdir d hd) ha))
        (hancid d (DepCl.base (hdir d hd)))
    have hdisj' : ∀ x ∈ id :: seen, x ∉ rest := by
      intro x hx
      rcases List.mem_cons.mp hx with rfl | hx'
      · exact hidrest
      · exact fun hr => hdisj x hx' (List.mem_cons_of_mem id hr)
    have hstat' : ∀ x, (execStep oracle steps st id).status x ≠ StepStatus.pending
        ↔ x ∈ id :: seen := by
      intro x
      by_cases hx : x = id
      · subst hx
        exact ⟨fun _ => List.mem_cons_self x seen,
          fun _ => execStep_status_self oracle steps st x s0 hl⟩
      · rw [execStep_status_ne oracle steps st id x hx, hstat x]
        constructor
        · exact fun h => List.mem_cons_of_mem id h
        · intro h
          rcases List.mem_cons.mp h with rfl | h'
          · exact absurd rfl hx
          · exact h'
    have hcomp' : ∀ x ∈ id :: seen,
        (∀ a, DepCl steps x a → oracle a = true) → oracle x = true →
        (execStep oracle steps st id).status x = StepStatus.completed := by
      intro x hx hancx hox
      rcases List.mem_cons.mp hx with rfl | hx'
      · have hOK := hdepsOK hancx
        rw [execStep_eq_some oracle steps st x s0 hl, if_pos hOK]
        simp [statusUpdate, hox]
      · have hxid : x ≠ id := fun h => hidseen (h ▸ hx')
        rw [execStep_status_ne oracle steps st id x hxid]
        exact hcomp x hx' hancx hox
    simp only [execList]
    rcases List.mem_cons.mp he with rfl | he'
    · have hOK := hdepsOK hanc
      have hstep := execStep_eq_some oracle steps st e s0 hl
      have hinv_self : e ∈ (execStep oracle steps st e).invoked := by
        rw [hstep, if_pos hOK]
        simp
      have hstat_self : (execStep oracle steps st e).status e
          = (if oracle e then StepStatus.completed else StepStatus.failed) := by
        rw [hstep, if_pos hOK]
        simp [statusUpdate]
      exact ⟨execList_invoked_mono oracle steps rest _ hinv_self,
        by rw [execList_status_stable oracle steps rest _ e hidrest, hstat_self]⟩
    · exact ih (id :: seen) (execStep oracle steps st id) h4 hdisj' hstat' hcomp'
        e he' hanc

/-- With distinct step ids, a declared step is the one its id resolves to. -/
theorem lookupStep_of_mem (steps : List WorkflowStep)
    (hnd : (steps.map (fun s => s.step_id)).Nodup)
    {s : WorkflowStep} (hmem : s ∈ steps) :
    lookupStep steps s.step_id = some s := by
  induction steps with
  | nil => cases hmem
  | cons a t ih =>
    rw [List.map_cons, List.nodup_cons] at hnd
    rcases List.mem_cons.mp hmem with rfl | hmem'
    · simp [lookupStep, List.find?]
    · have hne : a.step_id ≠ s.step_id := fun h =>
        hnd.1 (by rw [h]; exact List.mem_map_of_mem _ hmem')
      unfold lookupStep
      rw [List.find?_cons_of_neg _ (by simp [hne])]
      exact ih hnd.2 hmem'

/-- C4: for a valid plan, when a step fails during execution, every step that
directly or transitively depends on it ends skipped, its collaborator is
never invoked, and a failed WorkflowResult is still recorded for it whose
error message references a failed ancestor: a failed step the skipped step
transitively depends on; and every step whose transitive dependencies all
succeed is dispatched to its collaborator, so independent branches continue
to execute. -/
theorem c4_failure_propagation (oracle : String → Bool) (p : WorkflowPlan)
    (hv : ValidPlan p.steps p.execution_order = true) :
    (∀ e f, DepCl p.steps e f →
      (execPlan oracle p).status f = StepStatus.failed →
      (execPlan oracle p).status e = StepStatus.skipped ∧
      e ∉ (execPlan oracle p).invoked ∧
      ∃ r ∈ (execPlan oracle p).results,
        r.step_id = e ∧ r.success = false ∧
        ∃ a, (execPlan oracle p).status a = StepStatus.failed ∧
          DepCl p.steps e a ∧ r.error_message = some (skipMsg a)) ∧
    (∀ e ∈ p.execution_order, (∀ a, DepCl p.steps e a → oracle a = true) →
      e ∈ (execPlan oracle p).invoked ∧
      (execPlan oracle p).status e =
        (if oracle e then StepStatus.completed else StepStatus.failed)) := by
  simp only [ValidPlan, Bool.and_eq_true] at hv
  obtain ⟨⟨hnd0, hord⟩, hcov⟩ := hv
  have hnd : (p.steps.map (fun s => s.step_id)).Nodup := of_decide_eq_true hnd0
  have hdisj0 : ∀ x ∈ ([] : List String), x ∉ p.execution_order :=
    fun x hx => absurd hx (List.not_mem_nil x)
  have hstat0 : ∀ x, initExecState.status x ≠ StepStatus.pending
      ↔ x ∈ ([] : List String) := by
    intro x
    simp [initExecState]
  have hinv0 : ∀ x ∈ initExecState.invoked, x ∈ ([] : List String) := by
    intro x hx
    exact hx
  have hbl0 : BlameInv p.steps initExecState := by
    intro x
    constructor <;> intro h <;> simp [initExecState] at h
  have hkey : ∀ e d, directDep p.steps e d →
      (execPlan oracle p).status d ≠ StepStatus.completed →
      (execPlan oracle p).status e = StepStatus.skipped ∧
      e ∉ (execPlan oracle p).invoked ∧
      ∃ r ∈ (execPlan oracle p).results,
        r.step_id = e ∧ r.success = false ∧
        ∃ a, (execPlan oracle p).status a = StepStatus.failed ∧
          DepCl p.steps e a ∧ r.error_message = some (skipMsg a) := by
    intro e d hdir hdne
    obtain ⟨s, hsmem, hsid, hdd⟩ := hdir
    have he_in : e ∈ p.execution_order := by
      have h := List.all_eq_true.mp hcov s hsmem
      rw [hsid] at h
      exact memb_iff.mp h
    have hlk : lookupStep p.steps e = some s := by
      rw [← hsid]
      exact lookupStep_of_mem p.steps hnd hsmem
    exact (execList_char oracle p.steps p.execution_order [] initExecState hord
      hdisj0 hstat0 hinv0 hbl0 e he_in s hlk).2 ⟨d, hdd, hdne⟩
  constructor
  · intro e f hdep hf
    have hfne : (execPlan oracle p).status f ≠ StepStatus.completed := by
      rw [hf]
      intro hc
      cases hc
    clear hf
    revert hfne
    induction hdep with
    | base hd => exact fun hfne => hkey _ _ hd hfne
    | step hdir hdep2 ih =>
      intro hfne
      have hm := ih hfne
      refine hkey _ _ hdir ?_
      rw [hm.1]
      intro hc
      cases hc
  · intro e he hanc
    exact execList_indep oracle p.steps p.execution_order [] initExecState hord
      hdisj0 hstat0 (fun x hx => absurd hx (List.not_mem_nil x)) e he hanc

/-- Witness for C4: on the concrete plan the validity hypothesis holds, V1
fails, E1 (depending on V1) is skipped without invocation yet has a failed
result recorded whose error message references the failed ancestor, and the
independent step B1 still executes. -/
theorem c4_failure_propagation_witness :
    ValidPlan c4plan.steps c4plan.execution_order = true ∧
    (execPlan c4oracle c4plan).status "V1" = StepStatus.failed ∧
    ((execPlan c4oracle c4plan).status "E1" = StepStatus.skipped ∧
     "E1" ∉ (execPlan c4oracle c4plan).invoked ∧
     ∃ r ∈ (execPlan c4oracle c4plan).results,
       r.step_id = "E1" ∧ r.success = false ∧
       ∃ a, (execPlan c4oracle c4plan).status a = StepStatus.failed ∧
         DepCl c4plan.steps "E1" a ∧ r.error_message = some (skipMsg a)) ∧
    ("B1" ∈ (execPlan c4oracle c4plan).invoked ∧
     (execPlan c4oracle c4plan).status "B1" =
       (if c4oracle "B1" then StepStatus.completed else StepStatus.failed)) := by
  refine ⟨by decide, by decide, ?_, ?_⟩
  · exact (c4_failure_propagation c4oracle c4plan (by decide)).1 "E1" "V1"
      (DepCl.base (by unfold directDep; decide)) (by decide)
  · have hB1 : ∀ m, ¬ directDep c4steps "B1" m := by
      intro m hd
      obtain ⟨s, hs, hid, hdm⟩ := hd
      simp only [c4steps, List.mem_cons, List.not_mem_nil, or_false] at hs
      rcases hs with rfl | rfl | rfl
      · exact absurd hid (by decide)
      · simp at hdm
      · exact absurd hid (by decide)
    exact (c4_failure_propagation c4oracle c4plan (by decide)).2 "B1" (by decide)
      (fun a ha => by
        cases ha with
        | base hd => exact absurd hd (hB1 _)
        | step hd _ => exact absurd hd (hB1 _))
